import Mathlib

/-!
Shallow embedding of the core of compare_icon_fonts (src/main.rs): the design-space
stop sampler, the constellation generator, the icon-set reconciler, the subpath
splitter and the rotation-tolerant outline equivalence comparator, together with the
defect accounting of the diff driver. External collaborators (font parsing, kurbo
SVG-path parsing, skrifa axis normalization, rendering) appear as parameters.
Machine integers of the source (i32 axis values, usize counts) are modelled as
Int / Nat; the magnitudes involved never approach overflow. Coordinates of parsed
path segments are modelled as integer pairs: the comparator only ever tests them
for equality, never does arithmetic on them.
-/

namespace CompareIconFonts

/-- Axis tags are 4-byte identifiers (skrifa Tag); modelled as strings. -/
abbrev Tag := String

/-- struct Axis (src/main.rs lines 47-53): one variation axis read from fvar. -/
structure Axis where
  tag : Tag
  min : Int
  default : Int
  max : Int
deriving DecidableEq

/-- The while loop of fn stops (src/main.rs lines 57-61): push curr, advance by step,
    while curr <= max. Every call site passes a positive literal step, recorded as the
    hypothesis that makes the loop terminate. -/
def stopsLoop (max step : Int) (hstep : 0 < step) (curr : Int) : List Int :=
  if curr ≤ max then curr :: stopsLoop max step hstep (curr + step) else []
termination_by (max + 1 - curr).toNat
decreasing_by
  simp_wf
  omega

/-- fn stops(min, default, max, step) (src/main.rs lines 55-65): the stepped values,
    then pushes of default and max. -/
def stops (min default max step : Int) (hstep : 0 < step) : List Int :=
  stopsLoop max step hstep min ++ [default, max]

/-- Vec::dedup as called on a sorted vector in Axis::stops (src/main.rs line 84):
    removes consecutive repeated elements. -/
def dedupAdjacent : List Int → List Int
  | [] => []
  | [a] => [a]
  | a :: b :: rest =>
    if a = b then dedupAdjacent (b :: rest) else a :: dedupAdjacent (b :: rest)

/-- The per-tag step policy of the match in Axis::stops (src/main.rs lines 75-82);
    none models the panic arm for unrecognized tags. -/
def stepOf (tag : Tag) : Option Int :=
  if tag = "FILL" then some 1
  else if tag = "GRAD" then some 25
  else if tag = "ROND" then some 50
  else if tag = "opsz" then some 16
  else if tag = "wght" then some 200
  else none

/-- Axis::stops (src/main.rs lines 67-87): pick the stepped raw values by tag (panic,
    modelled none, when the tag is unrecognized), sort, dedup, and pair each value with
    the tag. -/
def Axis.stops (a : Axis) : Option (List (Tag × Int)) :=
  let raw : Option (List Int) :=
    if a.tag = "FILL" then some (CompareIconFonts.stops a.min a.default a.max 1 (by norm_num))
    else if a.tag = "GRAD" then some (CompareIconFonts.stops a.min a.default a.max 25 (by norm_num))
    else if a.tag = "ROND" then some (CompareIconFonts.stops a.min a.default a.max 50 (by norm_num))
    else if a.tag = "opsz" then some (CompareIconFonts.stops a.min a.default a.max 16 (by norm_num))
    else if a.tag = "wght" then some (CompareIconFonts.stops a.min a.default a.max 200 (by norm_num))
    else none
  raw.map (fun values =>
    (dedupAdjacent (values.mergeSort (fun x y => decide (x ≤ y)))).map (fun v => (a.tag, v)))

/-- kurbo PathEl: one command of a parsed BezPath. Coordinates are modelled as integer
    pairs; the comparison performs only equality tests on them. -/
inductive PathEl where
  | moveTo (p : Int × Int)
  | lineTo (p : Int × Int)
  | quadTo (p1 p2 : Int × Int)
  | curveTo (p1 p2 p3 : Int × Int)
  | closePath
deriving DecidableEq

/-- One BezPath produced by the splitter, as its element list. -/
abbrev Subpath := List PathEl

/-- The filter_map of fn subpaths (src/main.rs lines 118-127): indices of the
    characters 'm' and 'M' in the serialized path description. -/
def moveIndices (path : List Char) : List Nat :=
  path.enum.filterMap (fun ic => if ic.2 = 'm' ∨ ic.2 = 'M' then some ic.1 else none)

/-- Vec::windows(2) on the index list (src/main.rs line 128): consecutive pairs.
    A list with fewer than two elements yields no windows. -/
def windows2 : List Nat → List (Nat × Nat)
  | a :: b :: rest => (a, b) :: windows2 (b :: rest)
  | _ => []

/-- The slice path[a..b] of the Rust indexing (src/main.rs line 129). -/
def slice (path : List Char) (a b : Nat) : List Char :=
  (path.take b).drop a

/-- The character slices produced by fn subpaths (src/main.rs lines 117-130) before
    parsing: one slice per consecutive pair of move-command indices. Everything from
    the last move command to the end of the path is never sliced. -/
def subpathSlices (path : List Char) : List (List Char) :=
  (windows2 (moveIndices path)).map (fun w => slice path w.1 w.2)

/-- The map-collect of fn subpaths (src/main.rs lines 130-133): parse every slice with
    kurbo BezPath::from_svg (an external collaborator, passed as a parameter); a parse
    failure panics, modelled as none. -/
def parseAll (parse : List Char → Option Subpath) : List (List Char) → Option (List Subpath)
  | [] => some []
  | s :: rest =>
    match parse s, parseAll parse rest with
    | some p, some ps => some (p :: ps)
    | _, _ => none

/-- fn subpaths (src/main.rs lines 117-134). -/
def subpaths (parse : List Char → Option Subpath) (path : List Char) :
    Option (List Subpath) :=
  parseAll parse (subpathSlices path)

/-- Vec::rotate_right(1) (src/main.rs line 169) on a non-empty vector: the last element
    moves to the front. Rust panics when it is applied to an empty vector; the caller
    below tracks that case. -/
def rotateRightOne {α : Type} (l : List α) : List α :=
  l.drop (l.length - 1) ++ l.take (l.length - 1)

/-- kurbo BezPath::is_empty, the guard at src/main.rs line 163: true when the path
    contains no segments, i.e. every element is a move or a close command (it is not
    mere element-vector emptiness). -/
def isEmptyPath (l : Subpath) : Bool :=
  l.all (fun el =>
    match el with
    | PathEl.moveTo _ => true
    | PathEl.closePath => true
    | _ => false)

/-- The closure body of equivalent_paths (src/main.rs lines 159-172): equal subpaths
    match; otherwise a segment-less left subpath (BezPath::is_empty) fails; otherwise
    the right subpath's element vector is rotated right by one and compared to the
    left's. none models the rotate_right(1) panic on an empty right element vector. -/
def equivalentSubpath (left right : Subpath) : Option Bool :=
  if left = right then some true
  else if isEmptyPath left then some false
  else if right = [] then none
  else some (decide (left = rotateRightOne right))

/-- The .zip(...).all(...) fold of equivalent_paths (src/main.rs lines 156-172), with
    short-circuiting on the first false and panic propagation. -/
def allSubpathsEquivalent : List (Subpath × Subpath) → Option Bool
  | [] => some true
  | (l, r) :: rest =>
    match equivalentSubpath l r with
    | none => none
    | some false => some false
    | some true => allSubpathsEquivalent rest

/-- equivalent_paths (src/main.rs lines 145-173) after both svgs have been split into
    their subpath lists: differing counts are immediately non-equivalent, else the
    zipped pairwise comparison decides. -/
def equivalentPathsCore (left right : List Subpath) : Option Bool :=
  if left.length ≠ right.length then some false
  else allSubpathsEquivalent (left.zip right)

/-- equivalent_paths (src/main.rs lines 145-173) on the serialized path descriptions
    (the d attributes that parse_path extracts from the two svgs): split both sides
    into subpaths, then compare. -/
def equivalent_paths (parse : List Char → Option Subpath)
    (leftPath rightPath : List Char) : Option Bool :=
  match subpaths parse leftPath, subpaths parse rightPath with
  | some ls, some rs => equivalentPathsCore ls rs
  | _, _ => none

/-- sleipnir Icon after main's normalization (src/main.rs lines 266-274): the glyph id
    is zeroed and names and codepoints sorted, so identity is names plus codepoints. -/
structure Icon where
  names : List String
  codepoints : List Nat
deriving DecidableEq

/-- The sort key names.join(",") used for icons (src/main.rs lines 27 and 294). -/
def iconKey (i : Icon) : String :=
  String.intercalate "," i.names

/-- HashSet::difference (src/main.rs line 26): the elements of self that are not in
    other. A HashSet is modelled as a duplicate-free list in iteration order. -/
def setDifference (s other : List Icon) : List Icon :=
  s.filter (fun i => decide (i ∉ other))

/-- HashSet::intersection (src/main.rs lines 288 and 293): the elements of self that
    are also in other. -/
def setIntersection (s other : List Icon) : List Icon :=
  s.filter (fun i => decide (i ∈ other))

/-- PrintOnly::print_only (src/main.rs lines 24-31): the set difference, sorted by the
    comma-joined name key; the printed list, whose length is the defect contribution. -/
def print_only (s other : List Icon) : List Icon :=
  (setDifference s other).mergeSort (fun a b => decide (iconKey a ≤ iconKey b))

/-- A raw design-space location while under construction: the Vec of (tag, value)
    coordinate pairs of fn constellation (src/main.rs line 93). Stop values are i32
    cast to f32, exact at these magnitudes, so coordinates stay Int here. -/
abbrev RawLocation := List (Tag × Int)

/-- One pass of the while-let loop of fn constellation (src/main.rs lines 95-107):
    cross the working set with one stop list, appending that axis's coordinate to each
    partial location. -/
def crossStep (locations : List RawLocation) (stops : List (Tag × Int)) :
    List RawLocation :=
  locations.flatMap (fun loc => stops.map (fun st => loc ++ [st]))

/-- The full while-let loop (src/main.rs lines 95-107). The stop lists are consumed by
    Vec::pop, last list first, which is exactly a right fold. -/
def rawLocations (stopLists : List (List (Tag × Int))) : List RawLocation :=
  stopLists.foldr (fun stops acc => crossStep acc stops) [[]]

/-- fn constellation (src/main.rs lines 89-115) given the per-axis stop lists: build
    the raw cartesian product, canonicalize each raw location through the font's own
    axis mapping (skrifa Axes::location, an external collaborator) and collect the
    results into a set. -/
def constellation {Loc : Type} [DecidableEq Loc] (normalize : RawLocation → Loc)
    (stopLists : List (List (Tag × Int))) : Finset Loc :=
  ((rawLocations stopLists).map normalize).toFinset

/-- The process exit status of fn main (src/main.rs lines 352-357). -/
inductive ExitStatus where
  | success
  | failure
deriving DecidableEq

/-- The common icons in canonical order (src/main.rs lines 293-294): the intersection
    sorted by the comma-joined name key. -/
def testIcons (leftIcons rightIcons : List Icon) : List Icon :=
  (setIntersection leftIcons rightIcons).mergeSort
    (fun a b => decide (iconKey a ≤ iconKey b))

/-- The bad locations collected by main's inner loop (src/main.rs lines 310-337) for
    one icon: the test locations, in processing order, whose two renderings are not
    equivalent. The rendering and comparison outcome is the function equivAt. -/
def badLocs {Loc : Type} (testLocs : List Loc) (equivAt : Loc → Bool) : List Loc :=
  testLocs.filter (fun l => ! equivAt l)

/-- The defect accumulation of fn main (src/main.rs lines 302-350): icons only in the
    left font, icons only in the right font, and one defect per bad (icon, location)
    pair over the common test surface. -/
def totalErrs {Loc : Type} (leftIcons rightIcons : List Icon) (testLocs : List Loc)
    (equivAt : Icon → Loc → Bool) : Nat :=
  (print_only leftIcons rightIcons).length +
    (print_only rightIcons leftIcons).length +
    ((testIcons leftIcons rightIcons).map
      (fun i => (badLocs testLocs (equivAt i)).length)).sum

/-- The exit decision of fn main (src/main.rs lines 352-357). -/
def exitStatus (errs : Nat) : ExitStatus :=
  if errs = 0 then ExitStatus.success else ExitStatus.failure

/-- The ordinal handed to save_failure on each mismatch in main's loop (src/main.rs
    lines 329-333): bad_locs.len() sampled before the failing location is pushed onto
    bad_locs. The accumulator is the bad_locs vector built so far. -/
def saveOrdinals {Loc : Type} (equivAt : Loc → Bool) :
    List Loc → List Loc → List (Loc × Nat)
  | [], _ => []
  | l :: rest, badAcc =>
    if equivAt l then saveOrdinals equivAt rest badAcc
    else (l, badAcc.length) :: saveOrdinals equivAt rest (badAcc ++ [l])

/-- The (location, ordinal) pairs under which main persists failure artifacts for one
    icon, in processing order (src/main.rs lines 329-333). -/
def savedFailures {Loc : Type} (testLocs : List Loc) (equivAt : Loc → Bool) :
    List (Loc × Nat) :=
  saveOrdinals equivAt testLocs []

/-- The per-pair acceptance condition of the subpath comparison: the two subpaths are
    element-for-element identical, or the left one is non-empty in the kurbo sense
    (it contains at least one line or curve segment) and equals the
    right-rotation-by-one of the right one. -/
def subpathMatches (p : Subpath × Subpath) : Prop :=
  p.1 = p.2 ∨ (isEmptyPath p.1 = false ∧ rotateRightOne p.2 = p.1)

instance : DecidablePred subpathMatches := fun p => by
  unfold subpathMatches
  exact inferInstance

/-! ### Helper lemmas about the splitter -/

theorem windows2_length : ∀ l : List Nat, (windows2 l).length = l.length - 1
  | [] => rfl
  | [_] => rfl
  | a :: b :: rest => by
    rw [windows2]
    simp only [List.length_cons]
    rw [windows2_length (b :: rest)]
    simp

theorem windows2_eq_nil_of_length_le_one {l : List Nat} (h : l.length ≤ 1) :
    windows2 l = [] := by
  match l, h with
  | [], _ => rfl
  | [_], _ => rfl

/-- C1: the subpath splitter drops the tail of the path. It produces one slice per
    consecutive pair of move-command indices, so the slice count is the move-command
    count minus one, not the move-command count, and the segments from the final move
    command to the end of the path belong to no returned subpath: a path with exactly
    one move command yields no subpaths at all. -/
theorem subpaths_drop_final_subpath :
    (∀ path : List Char, (subpathSlices path).length = (moveIndices path).length - 1) ∧
    moveIndices (String.toList "M0,0 L1,1 Z") = [0] ∧
    subpathSlices (String.toList "M0,0 L1,1 Z") = [] ∧
    ∀ parse, subpaths parse (String.toList "M0,0 L1,1 Z") = some [] := by
  refine ⟨?_, by decide, by decide, fun parse => rfl⟩
  intro path
  rw [subpathSlices, List.length_map, windows2_length]

/-- C10: a path with exactly one move command splits into no subpaths, so any two such
    paths are judged equivalent, whatever segments follow the move command on either
    side and whatever the parser returns for them. -/
theorem single_move_paths_always_equivalent
    (parse : List Char → Option Subpath) (left right : List Char)
    (hl : (moveIndices left).length = 1) (hr : (moveIndices right).length = 1) :
    equivalent_paths parse left right = some true := by
  have el : subpathSlices left = [] := by
    rw [subpathSlices, windows2_eq_nil_of_length_le_one (by omega), List.map_nil]
  have er : subpathSlices right = [] := by
    rw [subpathSlices, windows2_eq_nil_of_length_le_one (by omega), List.map_nil]
  rw [equivalent_paths, subpaths, subpaths, el, er]
  rfl

/-- C10 witness: two concrete single-contour paths with entirely different segment
    content compare as equivalent even under a parser that rejects every slice. -/
theorem single_move_paths_always_equivalent_witness :
    equivalent_paths (fun _ => none) (String.toList "M0,0 L1,1 Z")
      (String.toList "M9,9 C1,2 3,4 5,6 Z") = some true :=
  single_move_paths_always_equivalent (fun _ => none) _ _ (by decide) (by decide)

/-! ### The unknown-axis policy -/

/-- C2 counterexample: for the unrecognized tag TEST, Axis::stops does not return the
    fallback stop list of min, default and max; it panics (modelled as none) with the
    message naming the tag. -/
theorem unknown_axis_no_fallback :
    (Axis.mk "TEST" 0 1 2).stops = none ∧
    (Axis.mk "TEST" 0 1 2).stops ≠ some [("TEST", 0), ("TEST", 1), ("TEST", 2)] := by
  constructor
  · rfl
  · intro h
    exact Option.noConfusion h

/-- C2 amended: for every Axis whose tag has no recognized sampling policy, Axis::stops
    panics (modelled as none) instead of producing any stop list. -/
theorem unknown_axis_stops_none (a : Axis) (h : stepOf a.tag = none) :
    a.stops = none := by
  rw [stepOf] at h
  rw [Axis.stops]
  split_ifs at h ⊢
  rfl

/-- C2 amended witness: the unrecognized tag TEST produces no stop list. -/
theorem unknown_axis_stops_none_witness : (Axis.mk "TEST" 0 1 2).stops = none :=
  unknown_axis_stops_none (Axis.mk "TEST" 0 1 2) (by decide)

/-! ### Artifact ordinals -/

/-- C3 counterexample: with a single test location whose comparison fails, the first
    mismatch of the icon is saved under ordinal 0, not under ordinal 1. -/
theorem first_failure_saved_under_zero :
    savedFailures [(0 : Nat)] (fun _ => false) = [((0 : Nat), 0)] ∧
    (savedFailures [(0 : Nat)] (fun _ => false)).map Prod.snd ≠ [1] := by
  constructor
  · rfl
  · decide

theorem saveOrdinals_getElem {Loc : Type} (equivAt : Loc → Bool) :
    ∀ (locs badAcc : List Loc) (k : Nat) (p : Loc × Nat),
      (saveOrdinals equivAt locs badAcc)[k]? = some p → p.2 = badAcc.length + k := by
  intro locs
  induction locs with
  | nil =>
    intro badAcc k p h
    simp [saveOrdinals] at h
  | cons l rest ih =>
    intro badAcc k p h
    by_cases he : equivAt l
    · rw [saveOrdinals, if_pos he] at h
      exact ih badAcc k p h
    · rw [saveOrdinals, if_neg he] at h
      match k with
      | 0 =>
        simp only [List.getElem?_cons_zero, Option.some.injEq] at h
        rw [← h]
        simp
      | Nat.succ k =>
        simp only [List.getElem?_cons_succ] at h
        have := ih (badAcc ++ [l]) k p h
        simp only [List.length_append, List.length_cons, List.length_nil] at this
        omega

/-- C3 amended: mismatch ordinals are 0-based: for every icon the k-th mismatching
    location in processing order (0-based k) is persisted under ordinal k, so the n-th
    mismatch in 1-based counting gets ordinal n-1. -/
theorem saved_ordinals_zero_based {Loc : Type} (testLocs : List Loc)
    (equivAt : Loc → Bool) (k : Nat) (p : Loc × Nat)
    (h : (savedFailures testLocs equivAt)[k]? = some p) : p.2 = k := by
  have := saveOrdinals_getElem equivAt testLocs [] k p h
  simpa using this

/-! ### Stop sampling -/

theorem mem_dedupAdjacent : ∀ (l : List Int) (x : Int), x ∈ dedupAdjacent l ↔ x ∈ l
  | [], _ => Iff.rfl
  | [_], _ => Iff.rfl
  | a :: b :: rest, x => by
    rw [dedupAdjacent]
    split_ifs with h
    · rw [mem_dedupAdjacent (b :: rest) x]
      subst h
      simp only [List.mem_cons]
      tauto
    · simp only [List.mem_cons, mem_dedupAdjacent (b :: rest) x]

theorem dedupAdjacent_sortedLT : ∀ l : List Int, l.Pairwise (· ≤ ·) →
    (dedupAdjacent l).Pairwise (· < ·)
  | [], _ => List.Pairwise.nil
  | [a], _ => by simp [dedupAdjacent]
  | a :: b :: rest, h => by
    have htail : (b :: rest).Pairwise (· ≤ ·) := h.tail
    have hab : a ≤ b := (List.pairwise_cons.1 h).1 b (List.mem_cons_self _ _)
    rw [dedupAdjacent]
    split_ifs with heq
    · exact dedupAdjacent_sortedLT (b :: rest) htail
    · rw [List.pairwise_cons]
      refine ⟨?_, dedupAdjacent_sortedLT (b :: rest) htail⟩
      intro x hx
      have hxmem : x ∈ b :: rest := (mem_dedupAdjacent _ _).1 hx
      have hbx : b ≤ x := by
        rcases List.mem_cons.1 hxmem with h1 | h1
        · exact le_of_eq h1.symm
        · exact (List.pairwise_cons.1 htail).1 x h1
      omega

theorem mergeSort_int_sorted (l : List Int) :
    (l.mergeSort (fun x y => decide (x ≤ y))).Pairwise (· ≤ ·) := by
  have h := @List.sorted_mergeSort Int (fun x y => decide (x ≤ y))
    (fun a b c h1 h2 => by
      simp only [decide_eq_true_eq] at h1 h2 ⊢
      omega)
    (fun a b => by
      simp only [Bool.or_eq_true, decide_eq_true_eq]
      omega)
    l
  exact h.imp (fun hab => by simpa using hab)

theorem stopsLoop_unfold (max step : Int) (hstep : 0 < step) (curr : Int) :
    stopsLoop max step hstep curr =
      if curr ≤ max then curr :: stopsLoop max step hstep (curr + step) else [] := by
  rw [stopsLoop]

theorem stopsLoop_mem (max step : Int) (hstep : 0 < step) :
    ∀ (k : Nat) (curr : Int), curr + (k : Int) * step ≤ max →
      curr + (k : Int) * step ∈ stopsLoop max step hstep curr := by
  intro k
  induction k with
  | zero =>
    intro curr h
    rw [stopsLoop_unfold, if_pos (by omega)]
    have : curr + ((0 : Nat) : Int) * step = curr := by
      push_cast
      ring
    rw [this]
    exact List.mem_cons_self _ _
  | succ k ih =>
    intro curr h
    have hcast : curr + ((Nat.succ k : Nat) : Int) * step =
        (curr + step) + (k : Int) * step := by
      push_cast
      ring
    have hnn : (0 : Int) ≤ (k : Int) * step :=
      mul_nonneg (Int.natCast_nonneg k) hstep.le
    have hc : curr ≤ max := by
      rw [hcast] at h
      omega
    rw [stopsLoop_unfold, if_pos hc, hcast]
    exact List.mem_cons_of_mem _ (ih (curr + step) (by rw [← hcast]; exact h))

/-- Two strictly ascending integer lists with the same members are identical. -/
theorem sortedLT_eq_of_mem_iff : ∀ {l1 l2 : List Int}, l1.Pairwise (· < ·) →
    l2.Pairwise (· < ·) → (∀ x, x ∈ l1 ↔ x ∈ l2) → l1 = l2
  | [], [], _, _, _ => rfl
  | [], b :: t2, _, _, hm =>
    absurd ((hm b).2 (List.mem_cons_self _ _)) (List.not_mem_nil b)
  | a :: t1, [], _, _, hm =>
    absurd ((hm a).1 (List.mem_cons_self _ _)) (List.not_mem_nil a)
  | a :: t1, b :: t2, h1, h2, hm => by
    have hab : a = b := by
      rcases List.mem_cons.1 ((hm a).1 (List.mem_cons_self _ _)) with h | h
      · exact h
      · have hba : b < a := (List.pairwise_cons.1 h2).1 a h
        rcases List.mem_cons.1 ((hm b).2 (List.mem_cons_self _ _)) with h3 | h3
        · omega
        · have : a < b := (List.pairwise_cons.1 h1).1 b h3
          omega
    subst hab
    have hm2 : ∀ x, x ∈ t1 ↔ x ∈ t2 := by
      intro x
      constructor
      · intro hx
        have hax : a < x := (List.pairwise_cons.1 h1).1 x hx
        rcases List.mem_cons.1 ((hm x).1 (List.mem_cons_of_mem _ hx)) with h3 | h3
        · omega
        · exact h3
      · intro hx
        have hax : a < x := (List.pairwise_cons.1 h2).1 x hx
        rcases List.mem_cons.1 ((hm x).2 (List.mem_cons_of_mem _ hx)) with h3 | h3
        · omega
        · exact h3
    have ht1 : t1.Pairwise (· < ·) := h1.tail
    have ht2 : t2.Pairwise (· < ·) := h2.tail
    rw [sortedLT_eq_of_mem_iff ht1 ht2 hm2]

/-- The shared content of every recognized branch of Axis::stops. -/
theorem axis_stops_branch (tag : Tag) (mn df mx step : Int) (hp : 0 < step)
    (h1 : mn ≤ df) (h2 : df ≤ mx) :
    ∃ l, some ((dedupAdjacent ((CompareIconFonts.stops mn df mx step hp).mergeSort
        (fun x y => decide (x ≤ y)))).map (fun v => (tag, v))) = some l ∧
      (l.map Prod.snd).Pairwise (· < ·) ∧ (tag, mn) ∈ l ∧
      (∀ k : Nat, mn + (k : Int) * step ≤ mx → (tag, mn + (k : Int) * step) ∈ l) ∧
      (tag, df) ∈ l ∧ (tag, mx) ∈ l := by
  set dd := dedupAdjacent ((CompareIconFonts.stops mn df mx step hp).mergeSort
    (fun x y => decide (x ≤ y))) with hdd
  have hmemdd : ∀ x : Int, x ∈ dd ↔ x ∈ CompareIconFonts.stops mn df mx step hp := by
    intro x
    rw [hdd, mem_dedupAdjacent, List.mem_mergeSort]
  have hmem : ∀ x : Int, x ∈ CompareIconFonts.stops mn df mx step hp →
      (tag, x) ∈ dd.map (fun v => (tag, v)) := by
    intro x hx
    exact List.mem_map_of_mem _ ((hmemdd x).2 hx)
  refine ⟨_, rfl, ?_, ?_, ?_, ?_, ?_⟩
  · have : (dd.map (fun v => (tag, v))).map Prod.snd = dd := by
      rw [List.map_map]
      simp
    rw [this]
    exact dedupAdjacent_sortedLT _ (mergeSort_int_sorted _)
  · refine hmem mn ?_
    rw [CompareIconFonts.stops]
    refine List.mem_append_left _ ?_
    have := stopsLoop_mem mx step hp 0 mn (by push_cast; omega)
    simpa using this
  · intro k hk
    refine hmem _ ?_
    rw [CompareIconFonts.stops]
    exact List.mem_append_left _ (stopsLoop_mem mx step hp k mn hk)
  · refine hmem df ?_
    rw [CompareIconFonts.stops]
    exact List.mem_append_right _ (by simp)
  · refine hmem mx ?_
    rw [CompareIconFonts.stops]
    exact List.mem_append_right _ (by simp)

/-- The concrete wght stop list of end-to-end scenario C. -/
theorem axis_stops_wght :
    (Axis.mk "wght" 100 400 700).stops =
      some [("wght", 100), ("wght", 300), ("wght", 400), ("wght", 500), ("wght", 700)] := by
  have hloop : ∀ hp : (0 : Int) < 200, stopsLoop 700 200 hp 100 = [100, 300, 500, 700] := by
    intro hp
    rw [stopsLoop_unfold, if_pos (by norm_num)]
    rw [stopsLoop_unfold, if_pos (by norm_num)]
    rw [stopsLoop_unfold, if_pos (by norm_num)]
    rw [stopsLoop_unfold, if_pos (by norm_num)]
    rw [stopsLoop_unfold, if_neg (by norm_num)]
    norm_num
  have hvalues : ∀ hp : (0 : Int) < 200,
      CompareIconFonts.stops 100 400 700 200 hp = [100, 300, 500, 700, 400, 700] := by
    intro hp
    rw [CompareIconFonts.stops, hloop hp]
    rfl
  have hdd : dedupAdjacent (([100, 300, 500, 700, 400, 700] : List Int).mergeSort
      (fun x y => decide (x ≤ y))) = [100, 300, 400, 500, 700] := by
    refine sortedLT_eq_of_mem_iff
      (dedupAdjacent_sortedLT _ (mergeSort_int_sorted _)) (by norm_num) ?_
    intro x
    rw [mem_dedupAdjacent, List.mem_mergeSort]
    simp only [List.mem_cons, List.not_mem_nil, or_false]
    tauto
  simp only [Axis.stops]
  rw [if_neg (by decide), if_neg (by decide), if_neg (by decide), if_neg (by decide),
    if_true, Option.map_some', hvalues, hdd]
  rfl

/-- C4: for every Axis with a recognized stepped tag and min ≤ default ≤ max, the stop
    list exists and is strictly ascending with no duplicates, contains min, contains
    every stepped value min + k*step not exceeding max, and contains both default and
    max; in particular wght with min 100, default 400, max 700 yields exactly
    100, 300, 400, 500, 700. -/
theorem axis_stops_stepped (a : Axis) (step : Int) (hstep : stepOf a.tag = some step)
    (hmd : a.min ≤ a.default) (hdm : a.default ≤ a.max) :
    (∃ l, a.stops = some l ∧
      (l.map Prod.snd).Pairwise (· < ·) ∧ (a.tag, a.min) ∈ l ∧
      (∀ k : Nat, a.min + (k : Int) * step ≤ a.max →
        (a.tag, a.min + (k : Int) * step) ∈ l) ∧
      (a.tag, a.default) ∈ l ∧ (a.tag, a.max) ∈ l) ∧
    (Axis.mk "wght" 100 400 700).stops =
      some [("wght", 100), ("wght", 300), ("wght", 400), ("wght", 500), ("wght", 700)] := by
  refine ⟨?_, axis_stops_wght⟩
  rw [stepOf] at hstep
  simp only [Axis.stops]
  split_ifs at hstep ⊢ with ht1 ht2 ht3 ht4 ht5
  · obtain rfl : step = 1 := (Option.some.inj hstep).symm
    exact axis_stops_branch a.tag a.min a.default a.max 1 (by norm_num) hmd hdm
  · obtain rfl : step = 25 := (Option.some.inj hstep).symm
    exact axis_stops_branch a.tag a.min a.default a.max 25 (by norm_num) hmd hdm
  · obtain rfl : step = 50 := (Option.some.inj hstep).symm
    exact axis_stops_branch a.tag a.min a.default a.max 50 (by norm_num) hmd hdm
  · obtain rfl : step = 16 := (Option.some.inj hstep).symm
    exact axis_stops_branch a.tag a.min a.default a.max 16 (by norm_num) hmd hdm
  · obtain rfl : step = 200 := (Option.some.inj hstep).symm
    exact axis_stops_branch a.tag a.min a.default a.max 200 (by norm_num) hmd hdm

/-- C4 witness: the wght axis of scenario C instantiates every conjunct. -/
theorem axis_stops_stepped_witness :
    (∃ l, (Axis.mk "wght" 100 400 700).stops = some l ∧
      (l.map Prod.snd).Pairwise (· < ·) ∧ ("wght", (100 : Int)) ∈ l ∧
      (∀ k : Nat, (100 : Int) + (k : Int) * 200 ≤ 700 →
        ("wght", (100 : Int) + (k : Int) * 200) ∈ l) ∧
      ("wght", (400 : Int)) ∈ l ∧ ("wght", (700 : Int)) ∈ l) ∧
    (Axis.mk "wght" 100 400 700).stops =
      some [("wght", 100), ("wght", 300), ("wght", 400), ("wght", 500), ("wght", 700)] :=
  axis_stops_stepped (Axis.mk "wght" 100 400 700) 200 (by decide)
    (by norm_num) (by norm_num)

/-! ### Rotation-tolerant outline equivalence -/

theorem equivalentSubpath_eq_true_iff (l r : Subpath) :
    equivalentSubpath l r = some true ↔ subpathMatches (l, r) := by
  rw [equivalentSubpath, subpathMatches]
  split_ifs with h1 h2 h3
  · simp [h1]
  · constructor
    · intro hc
      exact Bool.noConfusion (Option.some.inj hc)
    · rintro (hc | ⟨hne, _⟩)
      · exact absurd hc h1
      · rw [h2] at hne
        exact Bool.noConfusion hne
  · subst h3
    constructor
    · intro hc
      simp at hc
    · rintro (hc | ⟨hne, hc⟩)
      · exact absurd hc h1
      · have hl : l = [] := hc.symm
        rw [hl] at hne
        exact Bool.noConfusion hne
  · simp only [Option.some.injEq, decide_eq_true_eq]
    constructor
    · intro hc
      refine Or.inr ⟨?_, hc.symm⟩
      cases hb : isEmptyPath l
      · rfl
      · exact absurd hb h2
    · rintro (hc | ⟨_, hc⟩)
      · exact absurd hc h1
      · exact hc.symm

theorem allSubpathsEquivalent_eq_true_iff (ps : List (Subpath × Subpath)) :
    allSubpathsEquivalent ps = some true ↔ ∀ p ∈ ps, subpathMatches p := by
  induction ps with
  | nil => simp [allSubpathsEquivalent]
  | cons hd tl ih =>
    obtain ⟨l, r⟩ := hd
    rw [allSubpathsEquivalent]
    rcases hm : equivalentSubpath l r with _ | b
    · constructor
      · intro hc
        exact Option.noConfusion hc
      · intro hall
        have h1 := (equivalentSubpath_eq_true_iff l r).2 (hall _ (List.mem_cons_self _ _))
        rw [h1] at hm
        exact Option.noConfusion hm
    · cases b
      · constructor
        · intro hc
          exact Bool.noConfusion (Option.some.inj hc)
        · intro hall
          have h1 := (equivalentSubpath_eq_true_iff l r).2 (hall _ (List.mem_cons_self _ _))
          rw [h1] at hm
          exact Bool.noConfusion (Option.some.inj hm)
      · rw [ih]
        constructor
        · intro hall p hp
          rcases List.mem_cons.1 hp with h | h
          · subst h
            exact (equivalentSubpath_eq_true_iff l r).1 hm
          · exact hall p h
        · intro hall p hp
          exact hall p (List.mem_cons_of_mem _ hp)

theorem mem_zip_self {α : Type} : ∀ (l : List α) (p : α × α), p ∈ l.zip l → p.1 = p.2
  | [], p, h => by simp at h
  | a :: t, p, h => by
    rw [List.zip_cons_cons] at h
    rcases List.mem_cons.1 h with h1 | h1
    · rw [h1]
    · exact mem_zip_self t p h1

/-- C5: with equal subpath counts, the outlines compare as equivalent exactly when
    every index-aligned pair of subpaths is identical or the left is non-empty in the
    kurbo sense (BezPath::is_empty false, i.e. it has at least one line or curve
    segment) and equals the right-rotation-by-one of the right; the comparison is
    reflexive; unequal subpath counts are immediately non-equivalent; and concretely a
    rotation by two positions, or a coordinate change, is rejected. -/
theorem equivalent_paths_characterization (A B : List Subpath) :
    (A.length = B.length →
      (equivalentPathsCore A B = some true ↔ ∀ p ∈ A.zip B, subpathMatches p)) ∧
    equivalentPathsCore A A = some true ∧
    (A.length ≠ B.length → equivalentPathsCore A B = some false) ∧
    equivalentPathsCore
      [[PathEl.lineTo (1, 1), PathEl.lineTo (2, 2), PathEl.lineTo (3, 3),
        PathEl.lineTo (4, 4)]]
      [[PathEl.lineTo (3, 3), PathEl.lineTo (4, 4), PathEl.lineTo (1, 1),
        PathEl.lineTo (2, 2)]] = some false ∧
    equivalentPathsCore [[PathEl.lineTo (1, 1)]] [[PathEl.lineTo (1, 2)]] = some false := by
  refine ⟨?_, ?_, ?_, by decide, by decide⟩
  · intro hlen
    rw [equivalentPathsCore, if_neg (by omega)]
    exact allSubpathsEquivalent_eq_true_iff _
  · rw [equivalentPathsCore, if_neg (by simp)]
    exact (allSubpathsEquivalent_eq_true_iff _).2
      (fun p hp => Or.inl (mem_zip_self A p hp))
  · intro hlen
    rw [equivalentPathsCore, if_pos hlen]

/-- C5 witness: a subpath against its own right-rotation-by-one compares as
    equivalent, through the characterization at equal subpath counts. -/
theorem equivalent_paths_characterization_witness :
    equivalentPathsCore [[PathEl.moveTo (0, 0), PathEl.lineTo (5, 5)]]
      [[PathEl.lineTo (5, 5), PathEl.moveTo (0, 0)]] = some true :=
  ((equivalent_paths_characterization
      [[PathEl.moveTo (0, 0), PathEl.lineTo (5, 5)]]
      [[PathEl.lineTo (5, 5), PathEl.moveTo (0, 0)]]).1 rfl).mpr (by decide)

/-- C6 counterexample: equivalence is not symmetric: here A equals the
    right-rotation-by-one of B, so comparing A against B succeeds, but comparing B
    against A fails, because the tolerance only rotates the right-hand outline. -/
theorem equivalence_not_symmetric :
    equivalentPathsCore
      [[PathEl.lineTo (3, 3), PathEl.lineTo (1, 1), PathEl.lineTo (2, 2)]]
      [[PathEl.lineTo (1, 1), PathEl.lineTo (2, 2), PathEl.lineTo (3, 3)]]
      = some true ∧
    equivalentPathsCore
      [[PathEl.lineTo (1, 1), PathEl.lineTo (2, 2), PathEl.lineTo (3, 3)]]
      [[PathEl.lineTo (3, 3), PathEl.lineTo (1, 1), PathEl.lineTo (2, 2)]]
      = some false := by
  constructor
  · decide
  · decide

/-- C6 amended: the one-position-shift tolerance is directional: outlines compare as
    equivalent whenever each aligned pair of subpaths is identical or the left has at
    least one line or curve segment (kurbo BezPath::is_empty false) and equals the
    right-rotation-by-one of the right, and the induced relation is not symmetric:
    there are outline pairs equivalent in exactly one order. -/
theorem equivalence_one_directional (A B : List Subpath)
    (hlen : A.length = B.length) (hmatch : ∀ p ∈ A.zip B, subpathMatches p) :
    equivalentPathsCore A B = some true ∧
    ¬ ∀ X Y : List Subpath,
        (equivalentPathsCore X Y = some true ↔ equivalentPathsCore Y X = some true) := by
  constructor
  · rw [equivalentPathsCore, if_neg (by omega)]
    exact (allSubpathsEquivalent_eq_true_iff _).2 hmatch
  · intro hsym
    have h1 := (hsym
      [[PathEl.lineTo (3, 3), PathEl.lineTo (1, 1), PathEl.lineTo (2, 2)]]
      [[PathEl.lineTo (1, 1), PathEl.lineTo (2, 2), PathEl.lineTo (3, 3)]]).1 (by decide)
    have h2 : equivalentPathsCore
        [[PathEl.lineTo (1, 1), PathEl.lineTo (2, 2), PathEl.lineTo (3, 3)]]
        [[PathEl.lineTo (3, 3), PathEl.lineTo (1, 1), PathEl.lineTo (2, 2)]]
        ≠ some true := by decide
    exact h2 h1

/-- C6 amended witness: a pair of identical one-subpath outlines is equivalent, and
    the relation as a whole is not symmetric. -/
theorem equivalence_one_directional_witness :
    equivalentPathsCore [[PathEl.closePath]] [[PathEl.closePath]] = some true ∧
    ¬ ∀ X Y : List Subpath,
        (equivalentPathsCore X Y = some true ↔ equivalentPathsCore Y X = some true) :=
  equivalence_one_directional [[PathEl.closePath]] [[PathEl.closePath]] rfl (by decide)

/-! ### Reconciliation -/

theorem mem_print_only (s other : List Icon) (x : Icon) :
    x ∈ print_only s other ↔ x ∈ s ∧ x ∉ other := by
  rw [print_only, List.mem_mergeSort, setDifference, List.mem_filter]
  simp

theorem mem_setIntersection (s other : List Icon) (x : Icon) :
    x ∈ setIntersection s other ↔ x ∈ s ∧ x ∈ other := by
  rw [setIntersection, List.mem_filter]
  simp

theorem mergeSort_iconKey_sorted (l : List Icon) :
    (l.mergeSort (fun a b => decide (iconKey a ≤ iconKey b))).Pairwise
      (fun a b => iconKey a ≤ iconKey b) := by
  have h := @List.sorted_mergeSort Icon (fun a b => decide (iconKey a ≤ iconKey b))
    (fun a b c h1 h2 => by
      simp only [decide_eq_true_eq] at h1 h2 ⊢
      exact le_trans h1 h2)
    (fun a b => by
      simp only [Bool.or_eq_true, decide_eq_true_eq]
      exact le_total _ _)
    l
  exact h.imp (fun hab => by simpa using hab)

/-- C7: the reconciliation is a true partition: the two printed only lists together
    with the common set recover exactly the union of the two icon sets with no
    overlaps, the only lists are disjoint, and each only list is reported sorted by
    the comma-joined name key. -/
theorem reconciliation_partition (SL SR : List Icon) :
    ((print_only SL SR).toFinset ∪ (print_only SR SL).toFinset ∪
        (setIntersection SL SR).toFinset = SL.toFinset ∪ SR.toFinset) ∧
    Disjoint (print_only SL SR).toFinset (print_only SR SL).toFinset ∧
    Disjoint (print_only SL SR).toFinset (setIntersection SL SR).toFinset ∧
    Disjoint (print_only SR SL).toFinset (setIntersection SL SR).toFinset ∧
    (print_only SL SR).Pairwise (fun a b => iconKey a ≤ iconKey b) ∧
    (print_only SR SL).Pairwise (fun a b => iconKey a ≤ iconKey b) := by
  refine ⟨?_, ?_, ?_, ?_, ?_, ?_⟩
  · ext x
    simp only [Finset.mem_union, List.mem_toFinset, mem_print_only, mem_setIntersection]
    tauto
  · rw [Finset.disjoint_left]
    intro x hx hy
    rw [List.mem_toFinset, mem_print_only] at hx hy
    tauto
  · rw [Finset.disjoint_left]
    intro x hx hy
    rw [List.mem_toFinset, mem_print_only] at hx
    rw [List.mem_toFinset, mem_setIntersection] at hy
    tauto
  · rw [Finset.disjoint_left]
    intro x hx hy
    rw [List.mem_toFinset, mem_print_only] at hx
    rw [List.mem_toFinset, mem_setIntersection] at hy
    tauto
  · rw [print_only]
    exact mergeSort_iconKey_sorted _
  · rw [print_only]
    exact mergeSort_iconKey_sorted _

/-! ### Exit status accounting -/

theorem exitStatus_eq_success_iff (n : Nat) :
    exitStatus n = ExitStatus.success ↔ n = 0 := by
  rw [exitStatus]
  split_ifs with h
  · simp [h]
  · simp [h]

theorem print_only_length (s other : List Icon) (hs : s.Nodup) :
    (print_only s other).length = (s.toFinset \ other.toFinset).card := by
  rw [print_only, List.length_mergeSort]
  have hnd : (setDifference s other).Nodup := hs.filter _
  have hset : (setDifference s other).toFinset = s.toFinset \ other.toFinset := by
    ext x
    rw [List.mem_toFinset, Finset.mem_sdiff, List.mem_toFinset, List.mem_toFinset,
      setDifference, List.mem_filter]
    simp
  rw [← List.toFinset_card_of_nodup hnd, hset]

theorem testIcons_map_sum (SL SR : List Icon) (f : Icon → Nat) (h : SL.Nodup) :
    ((testIcons SL SR).map f).sum = Finset.sum (SL.toFinset ∩ SR.toFinset) f := by
  rw [testIcons]
  have hperm := (List.mergeSort_perm (setIntersection SL SR)
    (fun a b => decide (iconKey a ≤ iconKey b))).map f
  rw [hperm.sum_eq]
  have hnd : (setIntersection SL SR).Nodup := h.filter _
  have hset : (setIntersection SL SR).toFinset = SL.toFinset ∩ SR.toFinset := by
    ext x
    rw [List.mem_toFinset, Finset.mem_inter, List.mem_toFinset, List.mem_toFinset,
      mem_setIntersection]
  rw [← hset, List.sum_toFinset f hnd]

/-- C8: for every completed run, the process exit status is success exactly when the
    total defect count, that is the number of icons only in the left font plus the
    number only in the right font plus the number of mismatching (icon, location)
    pairs over the common test surface, is zero. -/
theorem exit_success_iff_zero_defects {Loc : Type} (SL SR : List Icon)
    (hL : SL.Nodup) (hR : SR.Nodup) (testLocs : List Loc)
    (equivAt : Icon → Loc → Bool) :
    exitStatus (totalErrs SL SR testLocs equivAt) = ExitStatus.success ↔
      (SL.toFinset \ SR.toFinset).card + (SR.toFinset \ SL.toFinset).card +
        Finset.sum (SL.toFinset ∩ SR.toFinset)
          (fun i => (testLocs.filter (fun l => equivAt i l = false)).length) = 0 := by
  have hfun : (fun i => (badLocs testLocs (equivAt i)).length) =
      (fun i => (testLocs.filter (fun l => equivAt i l = false)).length) := by
    funext i
    rw [badLocs]
    exact congrArg List.length
      (List.filter_congr (fun l _ => by cases equivAt i l <;> rfl))
  rw [exitStatus_eq_success_iff, totalErrs, print_only_length SL SR hL,
    print_only_length SR SL hR, hfun, testIcons_map_sum SL SR _ hL]

/-- C8 witness: identical one-icon fonts with no test locations exit successfully with
    a zero defect total. -/
theorem exit_success_iff_zero_defects_witness :
    exitStatus (totalErrs [Icon.mk ["home"] [59648]] [Icon.mk ["home"] [59648]]
        ([] : List Nat) (fun _ _ => true)) = ExitStatus.success ↔
      (([Icon.mk ["home"] [59648]].toFinset \ [Icon.mk ["home"] [59648]].toFinset).card +
        ([Icon.mk ["home"] [59648]].toFinset \ [Icon.mk ["home"] [59648]].toFinset).card +
        Finset.sum ([Icon.mk ["home"] [59648]].toFinset ∩ [Icon.mk ["home"] [59648]].toFinset)
          (fun i => (([] : List Nat).filter
            (fun l => (fun _ _ => true : Icon → Nat → Bool) i l = false)).length) = 0) :=
  exit_success_iff_zero_defects [Icon.mk ["home"] [59648]] [Icon.mk ["home"] [59648]]
    (List.nodup_singleton _) (List.nodup_singleton _) ([] : List Nat) (fun _ _ => true)

/-! ### Constellation generation -/

theorem crossStep_length (state : List RawLocation) (stops : List (Tag × Int)) :
    (crossStep state stops).length = state.length * stops.length := by
  induction state with
  | nil => simp [crossStep]
  | cons loc rest ih =>
    rw [crossStep] at ih ⊢
    rw [List.flatMap_cons, List.length_append, List.length_map, ih]
    simp only [List.length_cons]
    ring

theorem rawLocations_length (sl : List (List (Tag × Int))) :
    (rawLocations sl).length = (sl.map List.length).prod := by
  induction sl with
  | nil => rfl
  | cons s rest ih =>
    rw [rawLocations, List.foldr_cons, crossStep_length]
    rw [rawLocations] at ih
    rw [ih, List.map_cons, List.prod_cons]
    ring

theorem mem_crossStep {state : List RawLocation} {stops : List (Tag × Int)}
    {x : RawLocation} :
    x ∈ crossStep state stops ↔ ∃ loc ∈ state, ∃ st ∈ stops, loc ++ [st] = x := by
  simp [crossStep, List.mem_flatMap, List.mem_map]

theorem rawLocations_perm_mem {sl sl2 : List (List (Tag × Int))} (h : sl.Perm sl2) :
    ∀ x ∈ rawLocations sl2, ∃ y ∈ rawLocations sl, y.Perm x := by
  induction h with
  | nil =>
    intro x hx
    exact ⟨x, hx, List.Perm.refl x⟩
  | cons s hperm ih =>
    intro x hx
    rw [rawLocations, List.foldr_cons, mem_crossStep] at hx
    obtain ⟨loc, hloc, st, hst, rfl⟩ := hx
    obtain ⟨y, hy, hyloc⟩ := ih loc hloc
    refine ⟨y ++ [st], ?_, hyloc.append_right [st]⟩
    rw [rawLocations, List.foldr_cons, mem_crossStep]
    exact ⟨y, hy, st, hst, rfl⟩
  | swap s t tl =>
    intro x hx
    rw [rawLocations, List.foldr_cons, List.foldr_cons] at hx ⊢
    rw [mem_crossStep] at hx
    obtain ⟨loc1, hloc1, st1, hst1, rfl⟩ := hx
    rw [mem_crossStep] at hloc1
    obtain ⟨loc0, hloc0, st0, hst0, rfl⟩ := hloc1
    refine ⟨(loc0 ++ [st1]) ++ [st0], ?_, ?_⟩
    · rw [mem_crossStep]
      refine ⟨loc0 ++ [st1], ?_, st0, hst0, rfl⟩
      rw [mem_crossStep]
      exact ⟨loc0, hloc0, st1, hst1, rfl⟩
    · rw [List.append_assoc, List.append_assoc]
      exact (List.Perm.swap st0 st1 []).append_left loc0
  | trans h1 h2 ih1 ih2 =>
    intro x hx
    obtain ⟨y, hy, hyx⟩ := ih2 x hx
    obtain ⟨z, hz, hzy⟩ := ih1 y hy
    exact ⟨z, hz, hzy.trans hyx⟩

/-- C9: the raw location list has exactly product-of-stop-list-sizes entries, the
    canonicalized constellation has at most that many, and under a canonicalization
    that identifies permuted coordinate lists (the documented property of the font's
    own axis mapping) the constellation does not depend on the order in which axes are
    processed. -/
theorem constellation_cartesian (Loc : Type) [DecidableEq Loc]
    (normalize : RawLocation → Loc) (stopLists : List (List (Tag × Int))) :
    (rawLocations stopLists).length = (stopLists.map List.length).prod ∧
    (constellation normalize stopLists).card ≤ (stopLists.map List.length).prod ∧
    ((∀ l1 l2 : RawLocation, l1.Perm l2 → normalize l1 = normalize l2) →
      ∀ stopLists2, stopLists.Perm stopLists2 →
        constellation normalize stopLists2 = constellation normalize stopLists) := by
  refine ⟨rawLocations_length _, ?_, ?_⟩
  · rw [constellation, ← rawLocations_length]
    calc ((rawLocations stopLists).map normalize).toFinset.card
        ≤ ((rawLocations stopLists).map normalize).length :=
          List.toFinset_card_le ((rawLocations stopLists).map normalize)
      _ = (rawLocations stopLists).length := List.length_map _ _
  · intro hnorm sl2 hperm
    rw [constellation, constellation]
    ext z
    simp only [List.mem_toFinset, List.mem_map]
    constructor
    · rintro ⟨x, hx, rfl⟩
      obtain ⟨y, hy, hyx⟩ := rawLocations_perm_mem hperm x hx
      exact ⟨y, hy, hnorm y x hyx⟩
    · rintro ⟨x, hx, rfl⟩
      obtain ⟨y, hy, hyx⟩ := rawLocations_perm_mem hperm.symm x hx
      exact ⟨y, hy, hnorm y x hyx⟩

/-- C9 witness: with multiset canonicalization, which identifies permuted coordinate
    lists, swapping the two stop lists leaves the constellation unchanged. -/
theorem constellation_cartesian_witness :
    constellation (fun l => (l : Multiset (Tag × Int)))
        [[("b", 1), ("b", 2)], [("a", 0)]] =
      constellation (fun l => (l : Multiset (Tag × Int)))
        [[("a", 0)], [("b", 1), ("b", 2)]] :=
  (constellation_cartesian (Multiset (Tag × Int)) (fun l => (l : Multiset (Tag × Int)))
      [[("a", 0)], [("b", 1), ("b", 2)]]).2.2
    (fun _ _ h => Multiset.coe_eq_coe.mpr h)
    [[("b", 1), ("b", 2)], [("a", 0)]]
    (List.Perm.swap [("b", 1), ("b", 2)] [("a", 0)] [])

/-- C3 amended witness: with two failing locations, the second saved failure artifact
    (0-based index 1) carries ordinal 1. -/
theorem saved_ordinals_zero_based_witness :
    (savedFailures [5, 10] (fun _ : Nat => false))[1]? = some (10, 1) ∧
      (((10 : Nat), (1 : Nat)) : Nat × Nat).2 = 1 :=
  ⟨by decide, saved_ordinals_zero_based [5, 10] (fun _ => false) 1 (10, 1) (by decide)⟩

end CompareIconFonts
